import Mathlib

/-!
Shallow embedding of `ThroughputBenchmark::_run_core` from
src/src/ThroughputBenchmark.cpp (X-Mem), together with theorems checking
the specification's claims about it.

Modelling conventions:
* IEEE doubles are modelled by the type `Xd`: an exact rational, one of
  the two infinities, or NaN.  All finite arithmetic performed by the
  benchmark is modelled exactly (no rounding), which is the precision at
  which the specification states its formulas.
* The uint64 accumulators (`total_passes`, `total_adjusted_ticks`, ...)
  are modelled as unbounded naturals; 64-bit wraparound is not reachable
  for the tick/pass magnitudes the benchmark handles and no claim is
  about overflow.
* The external collaborators (kernel resolution, power readers, NUMA
  lookup, worker threads) are modelled as an environment `Env` recording
  the answers they give; the side effects of `_run_core` are recorded as
  an event trace (`Event`) so that ordering claims can be stated.
-/

namespace XMem

/-- Model of an IEEE double as produced by this benchmark: an exact
finite rational, positive or negative infinity, or NaN. -/
inductive Xd where
  | fin (q : ℚ)
  | posInf
  | negInf
  | nan
deriving DecidableEq

/-- IEEE-style addition on modelled doubles (finite arithmetic exact). -/
def xadd : Xd → Xd → Xd
  | Xd.nan, _ => Xd.nan
  | _, Xd.nan => Xd.nan
  | Xd.fin a, Xd.fin b => Xd.fin (a + b)
  | Xd.fin _, Xd.posInf => Xd.posInf
  | Xd.fin _, Xd.negInf => Xd.negInf
  | Xd.posInf, Xd.fin _ => Xd.posInf
  | Xd.negInf, Xd.fin _ => Xd.negInf
  | Xd.posInf, Xd.posInf => Xd.posInf
  | Xd.negInf, Xd.negInf => Xd.negInf
  | Xd.posInf, Xd.negInf => Xd.nan
  | Xd.negInf, Xd.posInf => Xd.nan

/-- IEEE-style division on modelled doubles: a nonzero finite value
divided by (positive) zero is a signed infinity, zero divided by zero is
NaN, finite arithmetic is exact. -/
def xdiv : Xd → Xd → Xd
  | Xd.nan, _ => Xd.nan
  | _, Xd.nan => Xd.nan
  | Xd.fin a, Xd.fin b =>
      if b = 0 then
        (if a = 0 then Xd.nan else if 0 < a then Xd.posInf else Xd.negInf)
      else Xd.fin (a / b)
  | Xd.fin _, Xd.posInf => Xd.fin 0
  | Xd.fin _, Xd.negInf => Xd.fin 0
  | Xd.posInf, Xd.fin b => if b < 0 then Xd.negInf else Xd.posInf
  | Xd.negInf, Xd.fin b => if b < 0 then Xd.posInf else Xd.negInf
  | Xd.posInf, Xd.posInf => Xd.nan
  | Xd.posInf, Xd.negInf => Xd.nan
  | Xd.negInf, Xd.posInf => Xd.nan
  | Xd.negInf, Xd.negInf => Xd.nan

/-- Modelled from the spec: the MB constant of common.h (common.h is not
under src); the spec's worked example fixes it at 1,048,576 bytes. -/
def MB : ℚ := 1048576

/-- Counters a ThroughputBenchmarkWorker exposes after it has joined
(getPasses, getAdjustedTicks, getElapsedDummyTicks, getBytesPerPass,
hadWarning); the worker itself is an external collaborator, so one
record per (iteration, worker) is taken as environment input. -/
structure WorkerOut where
  passes : ℕ
  adjustedTicks : ℕ
  dummyTicks : ℕ
  bytesPerPass : ℕ
  hadWarning : Bool

/-- Environment of one `_run_core` call: the configuration fields read
by the function and the answers of its external collaborators. -/
structure Env where
  /-- Configuration field: buffer length in bytes. -/
  len : ℕ
  /-- Configuration field: number of benchmark iterations. -/
  iterations : ℕ
  /-- Configuration field: number of worker threads. -/
  numWorkers : ℕ
  /-- Calibrated nanoseconds per hardware tick from the Timer. -/
  nsPerTick : ℚ
  /-- Whether determineSequentialKernel finds a kernel for the configured
  (rw mode, chunk size, stride) triple. -/
  kernelFound : Bool
  /-- Whether starting the power measurement threads succeeds. -/
  powerStartOk : Bool
  /-- Whether stopping the power measurement threads succeeds. -/
  powerStopOk : Bool
  /-- Result of cpu_id_in_numa_node for worker index t (negative when no
  logical CPU is found). -/
  cpuId : ℕ → ℤ
  /-- Whether the join of worker t in iteration i completes in time. -/
  joinOk : ℕ → ℕ → Bool
  /-- Counters reported by worker t in iteration i after joining. -/
  workerOut : ℕ → ℕ → WorkerOut

/-- Observable result state of the benchmark object written by
`_run_core`: the per-iteration metric sequence, the average metric
accumulator and the has-run flag. -/
structure RunState where
  metricOnIter : ℕ → Xd
  averageMetric : Xd
  hasRun : Bool

/-- Side effects of `_run_core`, in program order. -/
inductive Event where
  /-- determineSequentialKernel was called, with its success flag. -/
  | kresolve (ok : Bool)
  /-- the power measurement threads were started (ok = success). -/
  | pstart (ok : Bool)
  /-- warning: no logical CPU found for worker t of iteration i. -/
  | cpuWarn (i t : ℕ)
  /-- worker t of iteration i (and its Thread object) was constructed. -/
  | construct (i t : ℕ)
  /-- create_and_start was called for worker t of iteration i. -/
  | start (i t : ℕ)
  /-- worker t of iteration i was joined (ok = completed in time). -/
  | join (i t : ℕ) (ok : Bool)
  /-- a counter of worker t of iteration i was read for aggregation. -/
  | readCtr (i t : ℕ)
  /-- the metric of iteration i was stored and accumulated. -/
  | storeMetric (i : ℕ)
  /-- worker t of iteration i and its Thread object were deleted. -/
  | destroy (i t : ℕ)
  /-- the power measurement threads were stopped (ok = success). -/
  | pstop (ok : Bool)
  /-- the average metric was finalized and the has-run flag set. -/
  | finalize
deriving DecidableEq

/-- Sum of getPasses over all workers of iteration i
(ThroughputBenchmark.cpp line 166). -/
def totalPasses (env : Env) (i : ℕ) : ℕ :=
  ∑ t ∈ Finset.range env.numWorkers, (env.workerOut i t).passes

/-- Sum of getAdjustedTicks over all workers of iteration i (line 167). -/
def totalAdjustedTicks (env : Env) (i : ℕ) : ℕ :=
  ∑ t ∈ Finset.range env.numWorkers, (env.workerOut i t).adjustedTicks

/-- getBytesPerPass read from worker 0 of iteration i (line 163). -/
def bytesPerPass (env : Env) (i : ℕ) : ℕ :=
  (env.workerOut i 0).bytesPerPass

/-- total_adjusted_ticks / num_workers, integer division on uint64
(line 172). -/
def avgAdjustedTicks (env : Env) (i : ℕ) : ℕ :=
  totalAdjustedTicks env i / env.numWorkers

/-- The double computed and stored for iteration i (line 193):
((double)total_passes * (double)bytes_per_pass / (double)MB) divided by
((double)avg_adjusted_ticks * ns_per_tick / 1e9). -/
def iterMetric (env : Env) (i : ℕ) : Xd :=
  xdiv
    (Xd.fin ((totalPasses env i : ℚ) * (bytesPerPass env i : ℚ) / MB))
    (Xd.fin ((avgAdjustedTicks env i : ℚ) * env.nsPerTick / 1000000000))

/-- Events of the worker construction loop of iteration i (lines
130-147): for each t, the CPU lookup (warning when negative) followed by
construction of the worker and its Thread. -/
def constructTrace (env : Env) (i : ℕ) : List Event :=
  (List.range env.numWorkers).flatMap (fun t =>
    (if env.cpuId t < 0 then [Event.cpuWarn i t] else []) ++ [Event.construct i t])

/-- Events of the start loop of iteration i (lines 150-151). -/
def startTrace (env : Env) (i : ℕ) : List Event :=
  (List.range env.numWorkers).map (Event.start i)

/-- Events of the join loop of iteration i (lines 154-156). -/
def joinTrace (env : Env) (i : ℕ) : List Event :=
  (List.range env.numWorkers).map (fun t => Event.join i t (env.joinOk i t))

/-- Counter reads of the aggregation phase of iteration i: bytes_per_pass
is read from worker 0 (line 163), then each worker's counters are read in
the aggregation loop (lines 165-170). -/
def readTrace (env : Env) (i : ℕ) : List Event :=
  Event.readCtr i 0 :: (List.range env.numWorkers).map (Event.readCtr i)

/-- Deletion of the iteration's workers and threads (lines 198-203). -/
def destroyTrace (env : Env) (i : ℕ) : List Event :=
  (List.range env.numWorkers).map (Event.destroy i)

/-- Event trace of one loop iteration, in program order. -/
def iterTrace (env : Env) (i : ℕ) : List Event :=
  constructTrace env i ++ startTrace env i ++ joinTrace env i ++
    readTrace env i ++ [Event.storeMetric i] ++ destroyTrace env i

/-- Result-state update of one loop iteration (lines 193-194): store the
metric at index i and add it to the average accumulator. -/
def iterState (env : Env) (s : RunState) (i : ℕ) : RunState :=
  { s with
      metricOnIter := Function.update s.metricOnIter i (iterMetric env i)
      averageMetric := xadd s.averageMetric (iterMetric env i) }

/-- Result state after the first n loop iterations. -/
def loopState (env : Env) (s : RunState) : ℕ → RunState
  | 0 => s
  | n + 1 => iterState env (loopState env s n) n

/-- Shallow embedding of ThroughputBenchmark::_run_core (lines 85-221):
returns the bool result, the final result state and the event trace.
When kernel resolution fails it returns false at once (lines 97-100);
otherwise it starts power measurement, runs the iteration loop, stops
power measurement, divides the accumulator by the iteration count and
sets the has-run flag (lines 217-218). -/
def runCore (env : Env) (s : RunState) : Bool × RunState × List Event :=
  if env.kernelFound then
    (true,
     { metricOnIter := (loopState env s env.iterations).metricOnIter
       averageMetric :=
         xdiv (loopState env s env.iterations).averageMetric
           (Xd.fin (env.iterations : ℚ))
       hasRun := true },
     Event.kresolve true :: Event.pstart env.powerStartOk ::
       ((List.range env.iterations).flatMap (iterTrace env) ++
         [Event.pstop env.powerStopOk, Event.finalize]))
  else
    (false, s, [Event.kresolve false])

/-- len_per_thread = _len / _num_worker_threads (line 118). -/
def lenPerThread (len numWorkers : ℕ) : ℕ := len / numWorkers

/-- Byte addresses of the slice handed to worker t (line 131): offset
t * len_per_thread, length len_per_thread. -/
def workerSlice (len numWorkers t : ℕ) : Set ℕ :=
  Set.Ico (t * lenPerThread len numWorkers)
    (t * lenPerThread len numWorkers + lenPerThread len numWorkers)

/-- Modelled from the spec: the Benchmark base-class constructor (its
code is not under src) establishes the configuration invariant that the
buffer length is at least the worker count, rejecting any configuration
that violates it. -/
def acceptedConfiguration (len numWorkers : ℕ) : Prop := numWorkers ≤ len

/-- Modelled from the spec: construction leaves the result surface
blank, so a fresh benchmark starts with an unwritten metric sequence, a
zero average accumulator and the has-run flag false. -/
def freshState : RunState :=
  { metricOnIter := fun _ => Xd.fin 0
    averageMetric := Xd.fin 0
    hasRun := false }

/-- In trace l, every event satisfying P occurs strictly before every
event satisfying Q. -/
def Precedes (l : List Event) (P Q : Event → Prop) : Prop :=
  ∀ p q, ∀ hp : p < l.length, ∀ hq : q < l.length,
    P (l.get ⟨p, hp⟩) → Q (l.get ⟨q, hq⟩) → p < q

/-- Iteration index carried by an event, when it belongs to the body of
the iteration loop. -/
def eventIter : Event → Option ℕ
  | Event.cpuWarn i _ => some i
  | Event.construct i _ => some i
  | Event.start i _ => some i
  | Event.join i _ _ => some i
  | Event.readCtr i _ => some i
  | Event.storeMetric i => some i
  | Event.destroy i _ => some i
  | Event.kresolve _ => none
  | Event.pstart _ => none
  | Event.pstop _ => none
  | Event.finalize => none

/-- The event is a worker construction of iteration i. -/
def isConstructOf (i : ℕ) (e : Event) : Prop := ∃ t, e = Event.construct i t

/-- The event is a worker start of iteration i. -/
def isStartOf (i : ℕ) (e : Event) : Prop := ∃ t, e = Event.start i t

/-- The event is a worker join of iteration i. -/
def isJoinOf (i : ℕ) (e : Event) : Prop := ∃ t ok, e = Event.join i t ok

/-- The event is an aggregation counter read of iteration i. -/
def isReadOf (i : ℕ) (e : Event) : Prop := ∃ t, e = Event.readCtr i t

/-- Worker counters of the spec's worked example: 100 passes of 64
bytes per pass in 1,000,000 adjusted ticks. -/
def exampleWorker : WorkerOut :=
  { passes := 100
    adjustedTicks := 1000000
    dummyTicks := 0
    bytesPerPass := 64
    hadWarning := false }

/-- Environment of the spec's worked example: a 1,048,576-byte buffer,
4 workers, 1 iteration, 1 ns per tick, all collaborators succeeding. -/
def envEx : Env :=
  { len := 1048576
    iterations := 1
    numWorkers := 4
    nsPerTick := 1
    kernelFound := true
    powerStartOk := true
    powerStopOk := true
    cpuId := fun t => (t : ℤ)
    joinOk := fun _ _ => true
    workerOut := fun _ _ => exampleWorker }

/-- The example environment with a (mode, chunk, stride) triple for
which no kernel exists. -/
def envNoKernel : Env := { envEx with kernelFound := false }

/-- A single worker that completes one pass but reports zero adjusted
ticks. -/
def zeroTickWorker : WorkerOut :=
  { passes := 1
    adjustedTicks := 0
    dummyTicks := 0
    bytesPerPass := 64
    hadWarning := false }

/-- Environment with one worker reporting zero adjusted ticks in its
single iteration. -/
def envZeroTicks : Env :=
  { envEx with
      numWorkers := 1
      workerOut := fun _ _ => zeroTickWorker }

/-- The example environment where the NUMA lookup finds no CPU for any
worker index. -/
def envCpuMiss : Env := { envEx with cpuId := fun _ => (-1 : ℤ) }

/-- The example environment where starting the power readers fails
while stopping them succeeds. -/
def envPowerStartFail : Env := { envEx with powerStartOk := false }

/-! Basic lemmas about the loop state and the shape of a run. -/

theorem loopState_metricOnIter_lt {env : Env} {s : RunState} {i : ℕ} :
    ∀ {n : ℕ}, i < n → (loopState env s n).metricOnIter i = iterMetric env i := by
  intro n
  induction n with
  | zero => omega
  | succ n ih =>
      intro hi
      by_cases h : i = n
      · subst h
        simp [loopState, iterState]
      · have hi2 : i < n := by omega
        simp [loopState, iterState, Function.update_noteq h]
        exact ih hi2

theorem loopState_averageMetric (env : Env) (s : RunState) :
    ∀ n : ℕ, (loopState env s n).averageMetric =
      ((List.range n).map (iterMetric env)).foldl xadd s.averageMetric := by
  intro n
  induction n with
  | zero => simp [loopState]
  | succ n ih =>
      rw [List.range_succ, List.map_append, List.foldl_append]
      simp [loopState, iterState, ih]

theorem runCore_state (env : Env) (s : RunState) (h : env.kernelFound = true) :
    (runCore env s).2.1.metricOnIter = (loopState env s env.iterations).metricOnIter ∧
    (runCore env s).2.1.averageMetric =
      xdiv (loopState env s env.iterations).averageMetric (Xd.fin (env.iterations : ℚ)) ∧
    (runCore env s).2.1.hasRun = true := by
  simp [runCore, h]

theorem runCore_trace (env : Env) (s : RunState) (h : env.kernelFound = true) :
    (runCore env s).2.2 =
      Event.kresolve true :: Event.pstart env.powerStartOk ::
        ((List.range env.iterations).flatMap (iterTrace env) ++
          [Event.pstop env.powerStopOk, Event.finalize]) := by
  simp [runCore, h]

theorem runCore_result (env : Env) (s : RunState) (h : env.kernelFound = true) :
    (runCore env s).1 = true := by
  simp [runCore, h]

/-! Claim theorems. -/

/-- C3: when no kernel matches the configured (read/write mode, chunk
size, stride) triple, _run_core returns failure, and its trace contains
no worker construction, no worker start, no power-reader start and no
iteration work whatsoever. -/
theorem c3_kernel_failure_fails_fast (env : Env) (s : RunState)
    (h : env.kernelFound = false) :
    (runCore env s).1 = false ∧
    ∀ e ∈ (runCore env s).2.2,
      (∀ i t, e ≠ Event.construct i t) ∧
      (∀ i t, e ≠ Event.start i t) ∧
      (∀ ok, e ≠ Event.pstart ok) ∧
      (∀ i, e ≠ Event.storeMetric i) := by
  refine ⟨by simp [runCore, h], ?_⟩
  intro e he
  simp [runCore, h] at he
  subst he
  simp

/-- Witness for C3 at the concrete kernel-less environment. -/
theorem c3_witness :
    envNoKernel.kernelFound = false ∧
    ((runCore envNoKernel freshState).1 = false ∧
      ∀ e ∈ (runCore envNoKernel freshState).2.2,
        (∀ i t, e ≠ Event.construct i t) ∧
        (∀ i t, e ≠ Event.start i t) ∧
        (∀ ok, e ≠ Event.pstart ok) ∧
        (∀ i, e ≠ Event.storeMetric i)) :=
  ⟨rfl, c3_kernel_failure_fails_fast envNoKernel freshState rfl⟩

/-- C10: when kernel resolution fails, _run_core leaves the result
surface exactly as it was: metric sequence, average accumulator and
has-run flag are all unchanged, so a has-run flag that was false stays
false. -/
theorem c10_failure_leaves_results_untouched (env : Env) (s : RunState)
    (h : env.kernelFound = false) :
    (runCore env s).2.1.metricOnIter = s.metricOnIter ∧
    (runCore env s).2.1.averageMetric = s.averageMetric ∧
    (runCore env s).2.1.hasRun = s.hasRun := by
  simp [runCore, h]

/-- Witness for C10 at the concrete kernel-less environment. -/
theorem c10_witness :
    envNoKernel.kernelFound = false ∧
    ((runCore envNoKernel freshState).2.1.metricOnIter = freshState.metricOnIter ∧
      (runCore envNoKernel freshState).2.1.averageMetric = freshState.averageMetric ∧
      (runCore envNoKernel freshState).2.1.hasRun = freshState.hasRun) :=
  ⟨rfl, c10_failure_leaves_results_untouched envNoKernel freshState rfl⟩

/-- C4: a configuration with len < num_workers is rejected by the
construction invariant; every accepted configuration with at least one
worker yields only non-empty worker slices. -/
theorem c4_no_zero_length_slices (len numWorkers : ℕ) (hw : 1 ≤ numWorkers) :
    (len < numWorkers → ¬ acceptedConfiguration len numWorkers) ∧
    (acceptedConfiguration len numWorkers →
      ∀ t, (workerSlice len numWorkers t).Nonempty) := by
  constructor
  · intro hlen hacc
    exact absurd hacc (by simpa [acceptedConfiguration] using hlen)
  · intro hacc t
    have hpos : 1 ≤ lenPerThread len numWorkers := by
      have := (Nat.one_le_div_iff (by omega : 0 < numWorkers)).mpr hacc
      simpa [lenPerThread] using this
    exact ⟨t * lenPerThread len numWorkers, by simp [workerSlice]; omega⟩

/-- Witness for C4 at the spec example configuration (len 1,048,576 and
4 workers). -/
theorem c4_witness :
    1 ≤ 4 ∧
    ((1048576 < 4 → ¬ acceptedConfiguration 1048576 4) ∧
      (acceptedConfiguration 1048576 4 →
        ∀ t, (workerSlice 1048576 4 t).Nonempty)) :=
  ⟨by omega, c4_no_zero_length_slices 1048576 4 (by omega)⟩

/-- C5: worker t receives the byte interval starting at offset
t * (len / num_workers) of length len / num_workers; distinct workers
get disjoint slices and the slices of workers 0..num_workers-1 cover
exactly the first num_workers * (len / num_workers) bytes. -/
theorem c5_slice_partition (len numWorkers : ℕ) (hw : 1 ≤ numWorkers) :
    (∀ t u : ℕ, t ≠ u →
      Disjoint (workerSlice len numWorkers t) (workerSlice len numWorkers u)) ∧
    (⋃ t ∈ Finset.range numWorkers, workerSlice len numWorkers t) =
      Set.Ico 0 (numWorkers * lenPerThread len numWorkers) := by
  set L := lenPerThread len numWorkers with hL
  constructor
  · intro t u htu
    rw [Set.disjoint_left]
    rintro x hx hy
    simp only [workerSlice, Set.mem_Ico, ← hL] at hx hy
    rcases Nat.lt_or_ge t u with hlt | hge
    · have hle : (t + 1) * L ≤ u * L := Nat.mul_le_mul_right L (by omega)
      have : t * L + L = (t + 1) * L := by ring
      omega
    · have hult : u < t := by omega
      have hle : (u + 1) * L ≤ t * L := Nat.mul_le_mul_right L (by omega)
      have : u * L + L = (u + 1) * L := by ring
      omega
  · ext x
    simp only [Set.mem_iUnion, Set.mem_Ico, Finset.mem_range, workerSlice, ← hL,
      exists_prop, Nat.zero_le, true_and]
    constructor
    · rintro ⟨t, ht, h1, h2⟩
      have hle : (t + 1) * L ≤ numWorkers * L := Nat.mul_le_mul_right L (by omega)
      have : t * L + L = (t + 1) * L := by ring
      omega
    · intro hx
      have hLpos : 0 < L := by
        rcases Nat.eq_zero_or_pos L with h0 | h0
        · rw [h0, Nat.mul_zero] at hx
          omega
        · exact h0
      refine ⟨x / L, ?_, ?_, ?_⟩
      · exact (Nat.div_lt_iff_lt_mul hLpos).mpr (by omega)
      · exact Nat.div_mul_le_self x L
      · have h1 : L * (x / L) + x % L = x := Nat.div_add_mod x L
        have h2 : x % L < L := Nat.mod_lt x hLpos
        have h3 : x / L * L = L * (x / L) := Nat.mul_comm _ _
        omega

/-- Witness for C5 at the spec example configuration (len 1,048,576 and
4 workers). -/
theorem c5_witness :
    1 ≤ 4 ∧
    ((∀ t u : ℕ, t ≠ u →
        Disjoint (workerSlice 1048576 4 t) (workerSlice 1048576 4 u)) ∧
      (⋃ t ∈ Finset.range 4, workerSlice 1048576 4 t) =
        Set.Ico 0 (4 * lenPerThread 1048576 4)) :=
  ⟨by omega, c5_slice_partition 1048576 4 (by omega)⟩

/-- C1: on a successful run, the metric stored for iteration i equals
(total_passes * bytes_per_pass / MB) / (avg_adjusted_ticks * ns_per_tick
/ 1e9), with total_passes the sum of passes over all workers,
bytes_per_pass taken from worker 0 and avg_adjusted_ticks the integer
quotient of the summed adjusted ticks by the worker count, whenever that
denominator is nonzero. -/
theorem c1_iteration_metric (env : Env) (s : RunState) (h : env.kernelFound = true)
    (i : ℕ) (hi : i < env.iterations)
    (hden : (avgAdjustedTicks env i : ℚ) * env.nsPerTick / 1000000000 ≠ 0) :
    (runCore env s).2.1.metricOnIter i =
      Xd.fin (((totalPasses env i : ℚ) * (bytesPerPass env i : ℚ) / MB) /
        ((avgAdjustedTicks env i : ℚ) * env.nsPerTick / 1000000000)) := by
  rw [(runCore_state env s h).1, loopState_metricOnIter_lt hi]
  simp [iterMetric, xdiv, hden]

/-- Witness for C1 at the spec's worked example: 4 workers with 100
passes each of 64 bytes per pass, 1,000,000 average adjusted ticks and 1
ns per tick give a stored metric of 24.4140625 MB/s (the spec's
approximately 24.41). -/
theorem c1_witness :
    envEx.kernelFound = true ∧ 0 < envEx.iterations ∧
    ((avgAdjustedTicks envEx 0 : ℚ) * envEx.nsPerTick / 1000000000 ≠ 0) ∧
    (runCore envEx freshState).2.1.metricOnIter 0 = Xd.fin (24.4140625 : ℚ) := by
  have htk : totalAdjustedTicks envEx 0 = 4000000 := by
    simp [totalAdjustedTicks, envEx, exampleWorker]
  have havg : avgAdjustedTicks envEx 0 = 1000000 := by
    rw [avgAdjustedTicks, htk]
    norm_num [envEx]
  have hp : totalPasses envEx 0 = 400 := by
    simp [totalPasses, envEx, exampleWorker]
  have hb : bytesPerPass envEx 0 = 64 := rfl
  have hden : (avgAdjustedTicks envEx 0 : ℚ) * envEx.nsPerTick / 1000000000 ≠ 0 := by
    rw [havg]
    norm_num [envEx]
  refine ⟨rfl, by norm_num [envEx], hden, ?_⟩
  rw [c1_iteration_metric envEx freshState rfl 0 (by norm_num [envEx]) hden]
  rw [havg, hp, hb]
  norm_num [envEx, MB]

/-- C2, exhibit of the missing division guard: with a single worker that
completes one pass (64 bytes per pass) but reports zero adjusted ticks,
and 1 ns per tick, _run_core divides a positive numerator by zero and
stores positive infinity as the iteration metric; no guard exists in the
code. -/
theorem c2_zero_ticks_metric_infinite :
    (runCore envZeroTicks freshState).2.1.metricOnIter 0 = Xd.posInf := by
  have hi : (0 : ℕ) < envZeroTicks.iterations := by
    norm_num [envZeroTicks, envEx]
  rw [(runCore_state envZeroTicks freshState rfl).1, loopState_metricOnIter_lt hi]
  have hp : totalPasses envZeroTicks 0 = 1 := by
    simp [totalPasses, envZeroTicks, envEx, zeroTickWorker]
  have ha : avgAdjustedTicks envZeroTicks 0 = 0 := by
    simp [avgAdjustedTicks, totalAdjustedTicks, envZeroTicks, envEx, zeroTickWorker]
  have hb : bytesPerPass envZeroTicks 0 = 64 := rfl
  rw [iterMetric, hp, ha, hb]
  norm_num [xdiv, MB, envZeroTicks, envEx]

/-- C6: on a successful run starting from a zero average accumulator,
the stored average metric is exactly the accumulated sum of the stored
per-iteration metric sequence divided by the iteration count, and the
has-run flag is set. -/
theorem c6_average_is_mean_of_stored (env : Env) (s : RunState)
    (h : env.kernelFound = true) (h0 : s.averageMetric = Xd.fin 0) :
    (runCore env s).2.1.averageMetric =
      xdiv (((List.range env.iterations).map
          ((runCore env s).2.1.metricOnIter)).foldl xadd (Xd.fin 0))
        (Xd.fin (env.iterations : ℚ)) ∧
    (runCore env s).2.1.hasRun = true := by
  obtain ⟨hm, ha, hr⟩ := runCore_state env s h
  refine ⟨?_, hr⟩
  rw [ha, loopState_averageMetric, h0]
  have hmap : (List.range env.iterations).map ((runCore env s).2.1.metricOnIter) =
      (List.range env.iterations).map (iterMetric env) := by
    apply List.map_congr_left
    intro a hmem
    rw [hm, loopState_metricOnIter_lt (List.mem_range.mp hmem)]
  rw [hmap]

/-- Witness for C6 at the spec example environment starting from a
freshly constructed result state. -/
theorem c6_witness :
    envEx.kernelFound = true ∧ freshState.averageMetric = Xd.fin 0 ∧
    ((runCore envEx freshState).2.1.averageMetric =
        xdiv (((List.range envEx.iterations).map
            ((runCore envEx freshState).2.1.metricOnIter)).foldl xadd (Xd.fin 0))
          (Xd.fin (envEx.iterations : ℚ)) ∧
      (runCore envEx freshState).2.1.hasRun = true) :=
  ⟨rfl, rfl, c6_average_is_mean_of_stored envEx freshState rfl rfl⟩

/-! Trace-ordering infrastructure for the temporal claims. -/

theorem precedes_nil {P Q : Event → Prop} : Precedes [] P Q := by
  intro p q hp _ _ _
  simp at hp

theorem precedes_of_no_P {l : List Event} {P Q : Event → Prop}
    (h : ∀ x ∈ l, ¬ P x) : Precedes l P Q := by
  intro p q hp hq hP _
  exact absurd hP (h _ (List.get_mem l p hp))

theorem precedes_of_no_Q {l : List Event} {P Q : Event → Prop}
    (h : ∀ x ∈ l, ¬ Q x) : Precedes l P Q := by
  intro p q hp hq _ hQ
  exact absurd hQ (h _ (List.get_mem l q hq))

theorem precedes_append {a b : List Event} {P Q : Event → Prop}
    (ha : Precedes a P Q) (hb : Precedes b P Q)
    (hmix : (∀ x ∈ b, ¬ P x) ∨ (∀ x ∈ a, ¬ Q x)) :
    Precedes (a ++ b) P Q := by
  intro p q hp hq hP hQ
  rw [List.get_eq_getElem] at hP hQ
  by_cases hpa : p < a.length
  · by_cases hqa : q < a.length
    · rw [List.getElem_append_left hpa] at hP
      rw [List.getElem_append_left hqa] at hQ
      exact ha p q hpa hqa hP hQ
    · omega
  · have hpl : a.length ≤ p := by omega
    have hp2 : p - a.length < b.length := by
      rw [List.length_append] at hp
      omega
    rw [List.getElem_append_right hpl] at hP
    by_cases hqa : q < a.length
    · rw [List.getElem_append_left hqa] at hQ
      rcases hmix with hmb | hma
      · exact absurd hP (hmb _ (List.get_mem b _ hp2))
      · exact absurd hQ (hma _ (List.get_mem a _ hqa))
    · have hql : a.length ≤ q := by omega
      have hq2 : q - a.length < b.length := by
        rw [List.length_append] at hq
        omega
      rw [List.getElem_append_right hql] at hQ
      have := hb (p - a.length) (q - a.length) hp2 hq2 hP hQ
      omega

/-! Shapes of the events found in each sub-block of an iteration. -/

theorem constructTrace_shape {env : Env} {i : ℕ} :
    ∀ x ∈ constructTrace env i,
      (∃ t, x = Event.cpuWarn i t) ∨ (∃ t, x = Event.construct i t) := by
  intro x hx
  simp only [constructTrace, List.mem_flatMap, List.mem_range] at hx
  obtain ⟨t, ht, hx⟩ := hx
  rw [List.mem_append] at hx
  rcases hx with hx | hx
  · by_cases hc : env.cpuId t < 0
    · rw [if_pos hc] at hx
      simp only [List.mem_singleton] at hx
      exact Or.inl ⟨t, hx⟩
    · rw [if_neg hc] at hx
      simp at hx
  · simp only [List.mem_singleton] at hx
    exact Or.inr ⟨t, hx⟩

theorem startTrace_shape {env : Env} {i : ℕ} :
    ∀ x ∈ startTrace env i, ∃ t, x = Event.start i t := by
  intro x hx
  simp only [startTrace, List.mem_map, List.mem_range] at hx
  obtain ⟨t, _, hx⟩ := hx
  exact ⟨t, hx.symm⟩

theorem joinTrace_shape {env : Env} {i : ℕ} :
    ∀ x ∈ joinTrace env i, ∃ t ok, x = Event.join i t ok := by
  intro x hx
  simp only [joinTrace, List.mem_map, List.mem_range] at hx
  obtain ⟨t, _, hx⟩ := hx
  exact ⟨t, env.joinOk i t, hx.symm⟩

theorem readTrace_shape {env : Env} {i : ℕ} :
    ∀ x ∈ readTrace env i, ∃ t, x = Event.readCtr i t := by
  intro x hx
  simp only [readTrace, List.mem_cons, List.mem_map, List.mem_range] at hx
  rcases hx with hx | ⟨t, _, hx⟩
  · exact ⟨0, hx⟩
  · exact ⟨t, hx.symm⟩

theorem destroyTrace_shape {env : Env} {i : ℕ} :
    ∀ x ∈ destroyTrace env i, ∃ t, x = Event.destroy i t := by
  intro x hx
  simp only [destroyTrace, List.mem_map, List.mem_range] at hx
  obtain ⟨t, _, hx⟩ := hx
  exact ⟨t, hx.symm⟩

theorem iterTrace_iter {env : Env} {j : ℕ} :
    ∀ x ∈ iterTrace env j, eventIter x = some j := by
  intro x hx
  simp only [iterTrace, List.mem_append] at hx
  rcases hx with ((((hx | hx) | hx) | hx) | hx) | hx
  · rcases constructTrace_shape x hx with ⟨t, rfl⟩ | ⟨t, rfl⟩ <;> rfl
  · obtain ⟨t, rfl⟩ := startTrace_shape x hx
    rfl
  · obtain ⟨t, ok, rfl⟩ := joinTrace_shape x hx
    rfl
  · obtain ⟨t, rfl⟩ := readTrace_shape x hx
    rfl
  · simp only [List.mem_singleton] at hx
    subst hx
    rfl
  · obtain ⟨t, rfl⟩ := destroyTrace_shape x hx
    rfl

theorem precedes_flatMap {env : Env} {P Q : Event → Prop} {i : ℕ}
    (hPi : ∀ x, P x → eventIter x = some i)
    (hQi : ∀ x, Q x → eventIter x = some i)
    (hblock : Precedes (iterTrace env i) P Q) :
    ∀ n : ℕ, Precedes ((List.range n).flatMap (iterTrace env)) P Q := by
  intro n
  induction n with
  | zero => simpa using (precedes_nil (P := P) (Q := Q))
  | succ n ih =>
      rw [List.range_succ, List.flatMap_append]
      have hsingle : ([n] : List ℕ).flatMap (iterTrace env) = iterTrace env n := by
        simp
      rw [hsingle]
      by_cases hn : n = i
      · subst hn
        refine precedes_append ih hblock (Or.inr ?_)
        intro x hx hQ
        obtain ⟨j, hj, hxj⟩ := List.mem_flatMap.mp hx
        have h1 := iterTrace_iter x hxj
        have h2 := hQi x hQ
        rw [h1] at h2
        have : j = n := by injection h2
        rw [List.mem_range] at hj
        omega
      · have hnoP : ∀ x ∈ iterTrace env n, ¬ P x := by
          intro x hx hP
          have h1 := iterTrace_iter x hx
          have h2 := hPi x hP
          rw [h1] at h2
          exact hn (by injection h2)
        exact precedes_append ih (precedes_of_no_P hnoP) (Or.inl hnoP)

theorem precedes_runCore {env : Env} {s : RunState} (h : env.kernelFound = true)
    {P Q : Event → Prop} {i : ℕ}
    (hPi : ∀ x, P x → eventIter x = some i)
    (hQi : ∀ x, Q x → eventIter x = some i)
    (hblock : Precedes (iterTrace env i) P Q) :
    Precedes (runCore env s).2.2 P Q := by
  rw [runCore_trace env s h]
  have hhead : ∀ x ∈ [Event.kresolve true, Event.pstart env.powerStartOk],
      ¬ P x ∧ ¬ Q x := by
    intro x hx
    simp only [List.mem_cons, List.not_mem_nil, or_false] at hx
    constructor
    · intro hP
      have := hPi x hP
      rcases hx with rfl | rfl <;> simp [eventIter] at this
    · intro hQ
      have := hQi x hQ
      rcases hx with rfl | rfl <;> simp [eventIter] at this
  have htail : ∀ x ∈ [Event.pstop env.powerStopOk, Event.finalize], ¬ P x := by
    intro x hx hP
    have := hPi x hP
    simp only [List.mem_cons, List.not_mem_nil, or_false] at hx
    rcases hx with rfl | rfl <;> simp [eventIter] at this
  show Precedes ([Event.kresolve true, Event.pstart env.powerStartOk] ++
    ((List.range env.iterations).flatMap (iterTrace env) ++
      [Event.pstop env.powerStopOk, Event.finalize])) P Q
  refine precedes_append (precedes_of_no_P (fun x hx => (hhead x hx).1))
    (precedes_append (precedes_flatMap hPi hQi hblock env.iterations)
      (precedes_of_no_P htail) (Or.inl htail))
    (Or.inr (fun x hx => (hhead x hx).2))

/-- C7: in a successful run, every worker construction of iteration i
occurs in the trace strictly before any worker of iteration i is
started, and every worker join of iteration i occurs strictly before
any aggregation counter read of iteration i. -/
theorem c7_two_phase_ordering (env : Env) (s : RunState)
    (h : env.kernelFound = true) (i : ℕ) :
    Precedes (runCore env s).2.2 (isConstructOf i) (isStartOf i) ∧
    Precedes (runCore env s).2.2 (isJoinOf i) (isReadOf i) := by
  constructor
  · refine precedes_runCore h (i := i) ?_ ?_ ?_
    · rintro x ⟨t, rfl⟩
      rfl
    · rintro x ⟨t, rfl⟩
      rfl
    · have hsplit : iterTrace env i = constructTrace env i ++
          (startTrace env i ++ (joinTrace env i ++ (readTrace env i ++
            ([Event.storeMetric i] ++ destroyTrace env i)))) := by
        simp [iterTrace, List.append_assoc]
      rw [hsplit]
      have hnoQ : ∀ x ∈ constructTrace env i, ¬ isStartOf i x := by
        intro x hx
        rcases constructTrace_shape x hx with ⟨t, rfl⟩ | ⟨t, rfl⟩ <;>
          exact fun hs => by
            obtain ⟨u, hu⟩ := hs
            exact Event.noConfusion hu
      have hnoP : ∀ x ∈ startTrace env i ++ (joinTrace env i ++ (readTrace env i ++
          ([Event.storeMetric i] ++ destroyTrace env i))), ¬ isConstructOf i x := by
        intro x hx
        simp only [List.mem_append, List.mem_singleton] at hx
        rcases hx with hx | hx | hx | hx | hx
        · obtain ⟨t, rfl⟩ := startTrace_shape x hx
          rintro ⟨u, hu⟩
          exact Event.noConfusion hu
        · obtain ⟨t, ok, rfl⟩ := joinTrace_shape x hx
          rintro ⟨u, hu⟩
          exact Event.noConfusion hu
        · obtain ⟨t, rfl⟩ := readTrace_shape x hx
          rintro ⟨u, hu⟩
          exact Event.noConfusion hu
        · subst hx
          rintro ⟨u, hu⟩
          exact Event.noConfusion hu
        · obtain ⟨t, rfl⟩ := destroyTrace_shape x hx
          rintro ⟨u, hu⟩
          exact Event.noConfusion hu
      exact precedes_append (precedes_of_no_Q hnoQ) (precedes_of_no_P hnoP)
        (Or.inl hnoP)
  · refine precedes_runCore h (i := i) ?_ ?_ ?_
    · rintro x ⟨t, ok, rfl⟩
      rfl
    · rintro x ⟨t, rfl⟩
      rfl
    · have hsplit : iterTrace env i =
          (constructTrace env i ++ startTrace env i ++ joinTrace env i) ++
            (readTrace env i ++ [Event.storeMetric i] ++ destroyTrace env i) := by
        simp [iterTrace, List.append_assoc]
      rw [hsplit]
      have hnoQ : ∀ x ∈ constructTrace env i ++ startTrace env i ++ joinTrace env i,
          ¬ isReadOf i x := by
        intro x hx
        simp only [List.mem_append] at hx
        rcases hx with (hx | hx) | hx
        · rcases constructTrace_shape x hx with ⟨t, rfl⟩ | ⟨t, rfl⟩ <;>
            exact fun hs => by
              obtain ⟨u, hu⟩ := hs
              exact Event.noConfusion hu
        · obtain ⟨t, rfl⟩ := startTrace_shape x hx
          rintro ⟨u, hu⟩
          exact Event.noConfusion hu
        · obtain ⟨t, ok, rfl⟩ := joinTrace_shape x hx
          rintro ⟨u, hu⟩
          exact Event.noConfusion hu
      have hnoP : ∀ x ∈ readTrace env i ++ [Event.storeMetric i] ++ destroyTrace env i,
          ¬ isJoinOf i x := by
        intro x hx
        simp only [List.mem_append, List.mem_singleton] at hx
        rcases hx with (hx | hx) | hx
        · obtain ⟨t, rfl⟩ := readTrace_shape x hx
          rintro ⟨u, ok, hu⟩
          exact Event.noConfusion hu
        · subst hx
          rintro ⟨u, ok, hu⟩
          exact Event.noConfusion hu
        · obtain ⟨t, rfl⟩ := destroyTrace_shape x hx
          rintro ⟨u, ok, hu⟩
          exact Event.noConfusion hu
      exact precedes_append (precedes_of_no_Q hnoQ) (precedes_of_no_P hnoP)
        (Or.inl hnoP)

/-- Witness for C7 at the spec example environment, iteration 0. -/
theorem c7_witness :
    envEx.kernelFound = true ∧
    (Precedes (runCore envEx freshState).2.2 (isConstructOf 0) (isStartOf 0) ∧
      Precedes (runCore envEx freshState).2.2 (isJoinOf 0) (isReadOf 0)) :=
  ⟨rfl, c7_two_phase_ordering envEx freshState rfl 0⟩

/-- C8: failure of the power-reader operations is non-fatal, each one
independently: whatever the two success flags are, the run still
returns true, a failed start and a failed stop each appear in the trace
only as a logged warning, every iteration still stores its metric, and
the has-run flag is still set. -/
theorem c8_power_failure_nonfatal (env : Env) (s : RunState)
    (h : env.kernelFound = true) :
    (runCore env s).1 = true ∧
    (env.powerStartOk = false → Event.pstart false ∈ (runCore env s).2.2) ∧
    (env.powerStopOk = false → Event.pstop false ∈ (runCore env s).2.2) ∧
    (∀ i, i < env.iterations →
      Event.storeMetric i ∈ (runCore env s).2.2 ∧
      (runCore env s).2.1.metricOnIter i = iterMetric env i) ∧
    (runCore env s).2.1.hasRun = true := by
  have htr := runCore_trace env s h
  refine ⟨runCore_result env s h, ?_, ?_, ?_, (runCore_state env s h).2.2⟩
  · intro hps
    rw [htr, hps]
    simp
  · intro hpt
    rw [htr, hpt]
    simp
  · intro i hi
    constructor
    · rw [htr]
      simp only [List.mem_cons, List.mem_append, List.mem_flatMap, List.mem_range]
      right
      right
      left
      exact ⟨i, hi, by simp [iterTrace]⟩
    · rw [(runCore_state env s h).1, loopState_metricOnIter_lt hi]

/-- Witness for C8 at the example environment where only starting the
power readers fails, exercising the independent-failure case. -/
theorem c8_witness :
    envPowerStartFail.kernelFound = true ∧
    envPowerStartFail.powerStartOk = false ∧
    envPowerStartFail.powerStopOk = true ∧
    ((runCore envPowerStartFail freshState).1 = true ∧
      (envPowerStartFail.powerStartOk = false →
        Event.pstart false ∈ (runCore envPowerStartFail freshState).2.2) ∧
      (envPowerStartFail.powerStopOk = false →
        Event.pstop false ∈ (runCore envPowerStartFail freshState).2.2) ∧
      (∀ i, i < envPowerStartFail.iterations →
        Event.storeMetric i ∈ (runCore envPowerStartFail freshState).2.2 ∧
        (runCore envPowerStartFail freshState).2.1.metricOnIter i =
          iterMetric envPowerStartFail i) ∧
      (runCore envPowerStartFail freshState).2.1.hasRun = true) :=
  ⟨rfl, rfl, rfl, c8_power_failure_nonfatal envPowerStartFail freshState rfl⟩

/-- C9: when the NUMA lookup returns a negative CPU id for worker t, a
successful run still logs the warning, still constructs worker t and
still starts it in every iteration, and the missing mapping does not
change the result of _run_core. -/
theorem c9_missing_cpu_still_runs (env : Env) (s : RunState)
    (h : env.kernelFound = true) (i t : ℕ) (hi : i < env.iterations)
    (ht : t < env.numWorkers) (hcpu : env.cpuId t < 0) :
    Event.cpuWarn i t ∈ (runCore env s).2.2 ∧
    Event.construct i t ∈ (runCore env s).2.2 ∧
    Event.start i t ∈ (runCore env s).2.2 ∧
    (runCore env s).1 = true := by
  have htr := runCore_trace env s h
  have hmemIter : ∀ e ∈ iterTrace env i, e ∈ (runCore env s).2.2 := by
    intro e he
    rw [htr]
    simp only [List.mem_cons, List.mem_append, List.mem_flatMap, List.mem_range]
    right
    right
    left
    exact ⟨i, hi, he⟩
  refine ⟨?_, ?_, ?_, runCore_result env s h⟩
  · apply hmemIter
    simp only [iterTrace, List.mem_append]
    left
    left
    left
    left
    left
    simp only [constructTrace, List.mem_flatMap, List.mem_range]
    refine ⟨t, ht, ?_⟩
    rw [if_pos hcpu]
    simp
  · apply hmemIter
    simp only [iterTrace, List.mem_append]
    left
    left
    left
    left
    left
    simp only [constructTrace, List.mem_flatMap, List.mem_range]
    exact ⟨t, ht, by simp⟩
  · apply hmemIter
    simp only [iterTrace, List.mem_append]
    left
    left
    left
    left
    right
    simp only [startTrace, List.mem_map, List.mem_range]
    exact ⟨t, ht, rfl⟩

/-- Witness for C9 at the environment whose NUMA lookup never finds a
CPU, iteration 0, worker 0. -/
theorem c9_witness :
    envCpuMiss.kernelFound = true ∧ 0 < envCpuMiss.iterations ∧
    0 < envCpuMiss.numWorkers ∧ envCpuMiss.cpuId 0 < 0 ∧
    (Event.cpuWarn 0 0 ∈ (runCore envCpuMiss freshState).2.2 ∧
      Event.construct 0 0 ∈ (runCore envCpuMiss freshState).2.2 ∧
      Event.start 0 0 ∈ (runCore envCpuMiss freshState).2.2 ∧
      (runCore envCpuMiss freshState).1 = true) :=
  ⟨rfl, by decide, by decide, by decide,
    c9_missing_cpu_still_runs envCpuMiss freshState rfl 0 0 (by decide) (by decide)
      (by decide)⟩

end XMem
